import Mathlib

/-!
Verification of the candidate-selection algorithm and cache store of the
menu-notification repository.

The selector is embedded from `src/instagram_crawler.py`
(`get_todays_menu_post` and `find_menu_post_by_date`, which share their
candidate-scoring and ranking logic), and the cache store from
`src/cache_manager.py` (`save_menu_cache` and `load_menu_cache`).
-/

namespace MenuKnow

/-! ## Data model

`Post` embeds the fields of an instaloader post that the crawler reads:
`post.caption` and `post.accessibility_caption` may be `None` in Python,
hence `Option String`; `post.typename` is a plain string such as
`"GraphImage"` (single image) or `"GraphSidecar"` (carousel). -/

structure Post where
  caption : Option String
  accessibility_caption : Option String
  typename : String
deriving DecidableEq

/-- Python dates compared by the crawler (`datetime.date`): a triple of
year, month and day. -/
structure PyDate where
  year : Nat
  month : Nat
  day : Nat
deriving DecidableEq

/-! ## String primitives

Python's `needle in hay` substring test and `str.lower`, modelled over the
character list of the string. -/

/-- `hasSub needle hay`: `needle` occurs as a contiguous sublist of `hay`
(Python's `needle in hay` on strings; the empty needle always occurs). -/
def hasSub (needle : List Char) : List Char → Bool
  | [] => needle.isEmpty
  | c :: rest => needle.isPrefixOf (c :: rest) || hasSub needle rest

/-- Python's `needle in hay` for strings. -/
def strContains (hay needle : String) : Bool :=
  hasSub needle.data hay.data

/-- Python's `str.lower`, character by character (the substrings the code
searches for are ASCII, where this agrees with Python). -/
def lowerStr (s : String) : String :=
  ⟨s.data.map Char.toLower⟩

/-! ## Candidate selector (src/instagram_crawler.py)

Both `get_todays_menu_post` (lines 31-82) and `find_menu_post_by_date`
(lines 106-154) build the two date patterns, scan a bounded window of
posts, score each caption date match, stable-sort the candidates by score
descending and return the head. -/

/-- `caption = post.caption if post.caption else ""` (line 44 / 121). -/
def captionOf (p : Post) : String := p.caption.getD ""

/-- `acc_caption = post.accessibility_caption if post.accessibility_caption
else ""` (line 54 / 131). -/
def accCaptionOf (p : Post) : String := p.accessibility_caption.getD ""

/-- `date_str_1 = f"{month}월 {day}일"` (line 31 / 106): decimal month and
day, no leading zeros, with a space. -/
def datePattern1 (m d : Nat) : String :=
  toString m ++ "월 " ++ toString d ++ "일"

/-- `date_str_2 = f"{month}월{day}일"` (line 32 / 107): same without the
space. -/
def datePattern2 (m d : Nat) : String :=
  toString m ++ "월" ++ toString d ++ "일"

/-- `if date_str_1 in caption or date_str_2 in caption` (line 47 / 124). -/
def isDateMatch (m d : Nat) (p : Post) : Bool :=
  strContains (captionOf p) (datePattern1 m d) ||
    strContains (captionOf p) (datePattern2 m d)

/-- The candidate score (lines 50-63 / 127-139): starts at 0, `+= 10` when
the lowercased accessibility caption contains `"text"` or `"says"`,
`+= 5` when `post.typename == 'GraphImage'`. -/
def score (p : Post) : Nat :=
  let score0 := 0
  let acc := accCaptionOf p
  let score1 :=
    if strContains (lowerStr acc) "text" || strContains (lowerStr acc) "says" then
      score0 + 10
    else score0
  let score2 := if p.typename == "GraphImage" then score1 + 5 else score1
  score2

/-- The spec's first bonus, stated from its words: +10 if the accessibility
text, case-insensitively, contains the substring "text" or "says". -/
def bonusText (p : Post) : Nat :=
  if strContains (lowerStr (accCaptionOf p)) "text" ||
      strContains (lowerStr (accCaptionOf p)) "says" then 10
  else 0

/-- The spec's second bonus, stated from its words: +5 if the media type is
SingleImage (typename `'GraphImage'`). -/
def bonusImage (p : Post) : Nat :=
  if p.typename == "GraphImage" then 5 else 0

/-- The candidate list: the loop (lines 39-67 / 114-143) examines exactly
the first `limit` posts (`count` breaks the iteration at `limit`) and keeps
every date match. -/
def candList (posts : List Post) (m d : Nat) (limit : Nat) : List Post :=
  (posts.take limit).filter (isDateMatch m d)

/-- One step of the stable descending sort: insert `x` in front of the
first kept element whose score is not larger. -/
def insertDesc (x : Post) : List Post → List Post
  | [] => [x]
  | y :: ys => if score y ≤ score x then x :: y :: ys else y :: insertDesc x ys

/-- `candidates.sort(key=lambda x: x[0], reverse=True)` (line 78 / 150):
CPython's sort is stable and `reverse=True` inverts the key comparison
without disturbing ties, so equal-score candidates keep their input order.
Modelled as a stable insertion sort by score descending. -/
def sortDesc : List Post → List Post
  | [] => []
  | x :: xs => insertDesc x (sortDesc xs)

/-- The shared selection core of both crawler functions: collect the date
matches in the scanned window, return `none` if there are none (line 69-71
/ 145-147), otherwise the head of the stable descending sort (lines 78-82 /
150-154). -/
def selectMenuPost (posts : List Post) (m d : Nat) (limit : Nat) : Option Post :=
  let cands := candList posts m d limit
  if cands.isEmpty then none else (sortDesc cands).head?

/-- Python `date < date` (lexicographic on year, month, day). -/
def dateLt (a b : PyDate) : Bool :=
  a.year < b.year ||
    (a.year == b.year &&
      (a.month < b.month || (a.month == b.month && a.day < b.day)))

/-- `find_menu_post_by_date` (lines 89-154): the scan limit is
`20 if target_date < datetime.date.today() else 5` (line 115); the rest is
the shared selection core on the target date's month and day. -/
def find_menu_post_by_date (posts : List Post) (today target : PyDate) :
    Option Post :=
  selectMenuPost posts target.month target.day
    (if dateLt target today then 20 else 5)

/-- `get_todays_menu_post` (lines 9-86): the same selection core on today's
date with a fixed scan limit of 5 (line 41). -/
def get_todays_menu_post (posts : List Post) (today : PyDate) : Option Post :=
  selectMenuPost posts today.month today.day 5

/-! ## Cache store (src/cache_manager.py)

The cache file holds one JSON object mapping ISO date strings to entry
objects.  JSON values are embedded as `JsonVal`; the JSON object read from
the file is an association list whose key order is the Python `dict`
insertion order (which `json.load` / `json.dump` preserve). -/

inductive JsonVal where
  | str : String → JsonVal
  | null : JsonVal
  | obj : List (String × JsonVal) → JsonVal

/-- The state of the cache resource: the file may be absent, present but
unparseable (`json.load` raises `JSONDecodeError`), or a parsed mapping. -/
inductive CacheFile where
  | missing : CacheFile
  | corrupt : CacheFile
  | good : List (String × JsonVal) → CacheFile

/-- Python `cache_data[date_str] = value` on a dict: overwrite the entry in
place when the key is present, append it otherwise. -/
def dictSet : List (String × JsonVal) → String → JsonVal → List (String × JsonVal)
  | [], k, v => [(k, v)]
  | (a, b) :: rest, k, v =>
    if a == k then (k, v) :: rest else (a, b) :: dictSet rest k v

/-- Decimal digit of `n % 10` as a character. -/
def dChar (n : Nat) : Char :=
  match n with
  | 0 => '0' | 1 => '1' | 2 => '2' | 3 => '3' | 4 => '4'
  | 5 => '5' | 6 => '6' | 7 => '7' | 8 => '8' | _ => '9'

/-- Python's `datetime.date.isoformat()`: the zero-padded `YYYY-MM-DD`
rendering.  Python dates always satisfy `1 ≤ year ≤ 9999`,
`1 ≤ month ≤ 12`, `1 ≤ day ≤ 31`, for which this fixed-width digit
extraction is exact. -/
def isoformat (d : PyDate) : String :=
  ⟨[dChar (d.year / 1000 % 10), dChar (d.year / 100 % 10),
    dChar (d.year / 10 % 10), dChar (d.year % 10), '-',
    dChar (d.month / 10 % 10), dChar (d.month % 10), '-',
    dChar (d.day / 10 % 10), dChar (d.day % 10)]⟩

/-- The range Python's `datetime.date` guarantees for its fields. -/
def PyDate.isValid (d : PyDate) : Prop :=
  1 ≤ d.year ∧ d.year ≤ 9999 ∧ 1 ≤ d.month ∧ d.month ≤ 12 ∧
    1 ≤ d.day ∧ d.day ≤ 31

instance (d : PyDate) : Decidable d.isValid := by
  unfold PyDate.isValid
  infer_instance

/-- The entry object `save_menu_cache` stores (lines 52-56): `image_url`,
`timestamp` (the ISO rendering of `datetime.datetime.now(utc)`, passed here
as the string `nowIso`), and `username`. -/
def cacheEntry (image_url nowIso username : String) : JsonVal :=
  JsonVal.obj
    [("image_url", JsonVal.str image_url),
     ("timestamp", JsonVal.str nowIso),
     ("username", JsonVal.str username)]

/-- `save_menu_cache` (lines 24-67): start from the parsed existing mapping
when the file exists and parses, and from `{}` when it is missing or the
read raises (`JSONDecodeError`/`IOError` are caught, line 46-48); set the
entry under the ISO date key; write the whole mapping back.  Returns the
`bool` result together with the new resource state; no exception escapes in
the model, so the result is `true` (the code returns `False` only when an
unrecoverable I/O error raises past the inner handler). -/
def save_menu_cache (date : PyDate) (image_url username nowIso : String)
    (st : CacheFile) : Bool × CacheFile :=
  let cache_data : List (String × JsonVal) :=
    match st with
    | CacheFile.good m => m
    | _ => []
  let date_str := isoformat date
  let newData := dictSet cache_data date_str (cacheEntry image_url nowIso username)
  (true, CacheFile.good newData)

/-- `load_menu_cache` (lines 70-102): missing file ⇒ `None` (line 84-86);
unparseable file ⇒ the `JSONDecodeError` is caught and `None` returned
(lines 100-102); otherwise the value under the ISO date key if present,
else `None` (lines 93-98), with no validation of the value's shape. -/
def load_menu_cache (date : PyDate) : CacheFile → Option JsonVal
  | CacheFile.missing => none
  | CacheFile.corrupt => none
  | CacheFile.good m => m.lookup (isoformat date)

/-! ## Helper lemmas about the selector -/

/-- The best score among a list of candidates (0 when empty, which is also
the least possible score). -/
def maxScore : List Post → Nat
  | [] => 0
  | p :: ps => max (score p) (maxScore ps)

theorem insertDesc_ne_nil (x : Post) (l : List Post) : insertDesc x l ≠ [] := by
  cases l with
  | nil => simp [insertDesc]
  | cons y ys =>
    simp only [insertDesc]
    split <;> simp

theorem sortDesc_eq_nil_iff (l : List Post) : sortDesc l = [] ↔ l = [] := by
  cases l with
  | nil => simp [sortDesc]
  | cons x xs => simp [sortDesc, insertDesc_ne_nil]

theorem le_maxScore {p : Post} {l : List Post} (h : p ∈ l) :
    score p ≤ maxScore l := by
  induction l with
  | nil => cases h
  | cons x xs ih =>
    simp only [maxScore]
    rcases List.mem_cons.mp h with h1 | h2
    · subst h1; exact Nat.le_max_left _ _
    · exact Nat.le_trans (ih h2) (Nat.le_max_right _ _)

/-- The head of the stable descending sort is the first element of the
input attaining the maximal score. -/
theorem head?_sortDesc (l : List Post) :
    (sortDesc l).head? = l.find? (fun p => score p == maxScore l) := by
  induction l with
  | nil => rfl
  | cons x xs ih =>
    cases hxs : sortDesc xs with
    | nil =>
      have hx : xs = [] := (sortDesc_eq_nil_iff xs).mp hxs
      subst hx
      simp [sortDesc, insertDesc, maxScore, List.find?]
    | cons y ys =>
      have hhead : xs.find? (fun p => score p == maxScore xs) = some y := by
        rw [← ih, hxs]; rfl
      have hyscore : score y = maxScore xs := by
        have h1 := List.find?_some hhead
        simpa using h1
      show (insertDesc x (sortDesc xs)).head? = _
      rw [hxs]
      simp only [insertDesc]
      by_cases hle : score y ≤ score x
      · rw [if_pos hle]
        have hmax : maxScore (x :: xs) = score x := by
          simp only [maxScore]; omega
        simp [List.find?_cons, hmax]
      · rw [if_neg hle]
        have hlt : score x < score y := Nat.lt_of_not_le hle
        have hmax : maxScore (x :: xs) = maxScore xs := by
          simp only [maxScore]; omega
        have hpx : (score x == maxScore (x :: xs)) = false := by
          rw [hmax, ← hyscore]
          simp; omega
        rw [List.find?_cons, hpx]
        simp only [hmax, hhead, List.head?]

/-- When the scanned window holds at least one date match, the selector
returns the first candidate of maximal score. -/
theorem selectMenuPost_eq_find? (posts : List Post) (m d lim : Nat)
    (h : candList posts m d lim ≠ []) :
    selectMenuPost posts m d lim =
      (candList posts m d lim).find?
        (fun p => score p == maxScore (candList posts m d lim)) := by
  unfold selectMenuPost
  rw [if_neg (by simpa [List.isEmpty_iff] using h)]
  exact head?_sortDesc _

/-- The selector inspects only the first `lim` posts. -/
theorem selectMenuPost_take (posts : List Post) (m d lim : Nat) :
    selectMenuPost posts m d lim = selectMenuPost (posts.take lim) m d lim := by
  unfold selectMenuPost candList
  rw [List.take_take, Nat.min_self]

/-! ## Helper lemmas about the cache -/

theorem lookup_cons (a k : String) (b : JsonVal)
    (es : List (String × JsonVal)) :
    List.lookup a ((k, b) :: es) = if a == k then some b else es.lookup a := by
  cases h : a == k <;> simp [List.lookup, h]

theorem lookup_dictSet_self (m : List (String × JsonVal)) (k : String)
    (v : JsonVal) : (dictSet m k v).lookup k = some v := by
  induction m with
  | nil => simp [dictSet, lookup_cons]
  | cons ab rest ih =>
    obtain ⟨a, b⟩ := ab
    simp only [dictSet]
    cases hak : a == k with
    | true => simp [lookup_cons]
    | false =>
      have hka : (k == a) = false := by
        refine beq_eq_false_iff_ne.mpr ?_
        exact fun h => (by simp [h] at hak)
      simpa [lookup_cons, hka] using ih

theorem lookup_dictSet_ne (m : List (String × JsonVal)) (k k' : String)
    (v : JsonVal) (hne : k' ≠ k) :
    (dictSet m k v).lookup k' = m.lookup k' := by
  have hkk' : (k' == k) = false := beq_eq_false_iff_ne.mpr hne
  induction m with
  | nil => simp [dictSet, lookup_cons, hkk']
  | cons ab rest ih =>
    obtain ⟨a, b⟩ := ab
    simp only [dictSet]
    cases hak : a == k with
    | true =>
      have ha : a = k := by simpa using hak
      subst ha
      simp [lookup_cons, hkk']
    | false =>
      simp only [Bool.false_eq_true, if_false]
      rw [lookup_cons, lookup_cons, ih]

theorem dChar_inj : ∀ a : Nat, a < 10 → ∀ b : Nat, b < 10 →
    dChar a = dChar b → a = b := by decide

theorem isoformat_inj {d e : PyDate} (hd : d.isValid) (he : e.isValid)
    (h : isoformat d = isoformat e) : d = e := by
  obtain ⟨dy, dm, dd⟩ := d
  obtain ⟨ey, em, ed⟩ := e
  simp only [PyDate.isValid] at hd he
  obtain ⟨hd1, hd2, hd3, hd4, hd5, hd6⟩ := hd
  obtain ⟨he1, he2, he3, he4, he5, he6⟩ := he
  have h' := congrArg String.data h
  simp only [isoformat, List.cons.injEq, and_true, true_and,
    eq_self_iff_true] at h'
  obtain ⟨h1, h2, h3, h4, h5, h6, h7, h8⟩ := h'
  simp only [PyDate.mk.injEq]
  have ten : (0 : Nat) < 10 := by omega
  refine ⟨?_, ?_, ?_⟩
  · have e1 : dy / 1000 % 10 = ey / 1000 % 10 :=
      dChar_inj _ (Nat.mod_lt _ ten) _ (Nat.mod_lt _ ten) h1
    have e2 : dy / 100 % 10 = ey / 100 % 10 :=
      dChar_inj _ (Nat.mod_lt _ ten) _ (Nat.mod_lt _ ten) h2
    have e3 : dy / 10 % 10 = ey / 10 % 10 :=
      dChar_inj _ (Nat.mod_lt _ ten) _ (Nat.mod_lt _ ten) h3
    have e4 : dy % 10 = ey % 10 :=
      dChar_inj _ (Nat.mod_lt _ ten) _ (Nat.mod_lt _ ten) h4
    omega
  · have e5 : dm / 10 % 10 = em / 10 % 10 :=
      dChar_inj _ (Nat.mod_lt _ ten) _ (Nat.mod_lt _ ten) h5
    have e6 : dm % 10 = em % 10 :=
      dChar_inj _ (Nat.mod_lt _ ten) _ (Nat.mod_lt _ ten) h6
    omega
  · have e7 : dd / 10 % 10 = ed / 10 % 10 :=
      dChar_inj _ (Nat.mod_lt _ ten) _ (Nat.mod_lt _ ten) h7
    have e8 : dd % 10 = ed % 10 :=
      dChar_inj _ (Nat.mod_lt _ ten) _ (Nat.mod_lt _ ten) h8
    omega

/-! ## Concrete posts used to instantiate the theorems -/

/-- A date-matching carousel post with no bonuses (score 0). -/
def foodPost : Post :=
  { caption := some "3월 15일 오늘의 식단", accessibility_caption := none,
    typename := "GraphSidecar" }

/-- A date-matching single-image post whose accessibility text mentions
text (score 15). -/
def menuTextPost : Post :=
  { caption := some "3월 15일 오늘의 식단",
    accessibility_caption := some "Photo shows text of menu",
    typename := "GraphImage" }

/-- A post whose caption does not mention the target date. -/
def otherPost : Post :=
  { caption := some "공지사항", accessibility_caption := none,
    typename := "GraphSidecar" }

/-- A five-post window whose only date match for (3, 15) sits at
index 3. -/
def demoWindow : List Post := [otherPost, otherPost, otherPost, foodPost, otherPost]

/-- Two single-image date matches with equal score 5. -/
def tiePostA : Post :=
  { caption := some "3월 15일 A", accessibility_caption := none,
    typename := "GraphImage" }

/-- Second of the two tied posts. -/
def tiePostB : Post :=
  { caption := some "3월 15일 B", accessibility_caption := none,
    typename := "GraphImage" }

/-! ## Claim theorems: the selector -/

/-- C1: for every date match in the scanned window, the score is exactly
the sum of the two independent bonuses (+10 when the lowercased
accessibility text contains "text" or "says", +5 when the media type is a
single image, typename `'GraphImage'`); a date match earning neither bonus
scores 0 and remains an eligible candidate, so the selector returns a
post. -/
theorem menu_score_sum_of_bonuses (posts : List Post) (m d lim : Nat)
    (p : Post) (hp : p ∈ posts.take lim) (hm : isDateMatch m d p = true) :
    score p = bonusText p + bonusImage p ∧
      (bonusText p = 0 → bonusImage p = 0 → score p = 0) ∧
      p ∈ candList posts m d lim ∧
      ∃ q, selectMenuPost posts m d lim = some q := by
  have hsum : score p = bonusText p + bonusImage p := by
    simp only [score, bonusText, bonusImage]
    split <;> split <;> simp
  have hcand : p ∈ candList posts m d lim := List.mem_filter.mpr ⟨hp, hm⟩
  have hne : candList posts m d lim ≠ [] := by
    intro hnil
    rw [hnil] at hcand
    cases hcand
  obtain ⟨q, hq⟩ : ∃ q, (sortDesc (candList posts m d lim)).head? = some q := by
    cases hs : sortDesc (candList posts m d lim) with
    | nil => exact absurd ((sortDesc_eq_nil_iff _).mp hs) hne
    | cons a l => exact ⟨a, rfl⟩
  refine ⟨hsum, fun h1 h2 => by rw [hsum, h1, h2], hcand, q, ?_⟩
  unfold selectMenuPost
  rw [if_neg (by simpa [List.isEmpty_iff] using hne)]
  exact hq

theorem menu_score_sum_of_bonuses_witness :
    score foodPost = bonusText foodPost + bonusImage foodPost ∧
      (bonusText foodPost = 0 → bonusImage foodPost = 0 → score foodPost = 0) ∧
      foodPost ∈ candList [foodPost] 3 15 5 ∧
      ∃ q, selectMenuPost [foodPost] 3 15 5 = some q :=
  menu_score_sum_of_bonuses [foodPost] 3 15 5 foodPost (by decide) (by decide)

/-- C2: whenever the scanned window holds a date match, the selector
returns a date match from that window whose score is maximal among all the
window's date matches, whatever the matches' positions in the input
order. -/
theorem selector_returns_max_score (posts : List Post) (m d lim : Nat)
    (p : Post) (hp : p ∈ posts.take lim) (hm : isDateMatch m d p = true) :
    ∃ q, selectMenuPost posts m d lim = some q ∧ q ∈ posts.take lim ∧
      isDateMatch m d q = true ∧
      ∀ r ∈ posts.take lim, isDateMatch m d r = true → score r ≤ score q := by
  have hcand : p ∈ candList posts m d lim := List.mem_filter.mpr ⟨hp, hm⟩
  have hne : candList posts m d lim ≠ [] := by
    intro hnil
    rw [hnil] at hcand
    cases hcand
  obtain ⟨q, hq⟩ : ∃ q, (candList posts m d lim).find?
      (fun r => score r == maxScore (candList posts m d lim)) = some q := by
    rw [← head?_sortDesc]
    cases hs : sortDesc (candList posts m d lim) with
    | nil => exact absurd ((sortDesc_eq_nil_iff _).mp hs) hne
    | cons a l => exact ⟨a, rfl⟩
  have hqmem := List.mem_of_find?_eq_some hq
  have hqmax : score q = maxScore (candList posts m d lim) := by
    simpa using List.find?_some hq
  obtain ⟨hqtake, hqmatch⟩ := List.mem_filter.mp hqmem
  refine ⟨q, ?_, hqtake, hqmatch, ?_⟩
  · rw [selectMenuPost_eq_find? posts m d lim hne, hq]
  · intro r hr hrm
    have hrc : r ∈ candList posts m d lim := List.mem_filter.mpr ⟨hr, hrm⟩
    exact hqmax ▸ le_maxScore hrc

theorem selector_returns_max_score_witness :
    ∃ q, selectMenuPost [foodPost, menuTextPost] 3 15 5 = some q ∧
      q ∈ ([foodPost, menuTextPost]).take 5 ∧
      isDateMatch 3 15 q = true ∧
      ∀ r ∈ ([foodPost, menuTextPost]).take 5,
        isDateMatch 3 15 r = true → score r ≤ score q :=
  selector_returns_max_score [foodPost, menuTextPost] 3 15 5 foodPost
    (by decide) (by decide)

/-- C3: the ranking is a stable sort on score alone: whenever the window
holds a date match, the selector returns exactly the first candidate (in
input order, most recent first) whose score attains the maximum, so tied
candidates are resolved to the earliest one and candidates' positions or
contents are never otherwise compared. -/
theorem selector_tie_break_stable (posts : List Post) (m d lim : Nat)
    (h : candList posts m d lim ≠ []) :
    selectMenuPost posts m d lim =
      (candList posts m d lim).find?
        (fun p => score p == maxScore (candList posts m d lim)) :=
  selectMenuPost_eq_find? posts m d lim h

theorem selector_tie_break_stable_witness :
    (selectMenuPost [tiePostA, tiePostB] 3 15 5 =
      (candList [tiePostA, tiePostB] 3 15 5).find?
        (fun p => score p == maxScore (candList [tiePostA, tiePostB] 3 15 5))) ∧
      selectMenuPost [tiePostA, tiePostB] 3 15 5 = some tiePostA ∧
      score tiePostA = score tiePostB :=
  ⟨selector_tie_break_stable [tiePostA, tiePostB] 3 15 5 (by decide),
    by decide, by decide⟩

/-- C4 counterexample: for month 3, day 15 the caption "03월 15일" IS a
date match, because substring matching finds the unpadded pattern
"3월 15일" inside it — the claim asserts this caption does not match. -/
theorem zero_padded_caption_still_matches :
    isDateMatch 3 15
      { caption := some "03월 15일", accessibility_caption := none,
        typename := "GraphImage" } = true := by decide

/-- C4 amended: a post is a date match iff its caption contains
`"{m}월 {d}일"` or `"{m}월{d}일"` as a literal substring, with month and
day decimal without leading zeros and no normalization; the caption
"3월 15일" matches for (3, 15) and the generated pattern is never
zero-padded, but a caption such as "03월 15일" still matches because it
contains the unpadded pattern as a substring. -/
theorem dateMatch_characterization :
    (∀ m d p, isDateMatch m d p =
        (strContains (captionOf p) (datePattern1 m d) ||
          strContains (captionOf p) (datePattern2 m d))) ∧
      datePattern1 3 15 = "3월 15일" ∧
      datePattern2 3 15 = "3월15일" ∧
      isDateMatch 3 15
        { caption := some "3월 15일", accessibility_caption := none,
          typename := "t" } = true ∧
      isDateMatch 12 1
        { caption := some "급식 12월 1일 메뉴", accessibility_caption := none,
          typename := "t" } = true ∧
      isDateMatch 12 1
        { caption := some "급식 12월1일 메뉴", accessibility_caption := none,
          typename := "t" } = true ∧
      isDateMatch 3 15
        { caption := some "03월 15일", accessibility_caption := none,
          typename := "t" } = true :=
  ⟨fun _ _ _ => rfl, by decide, by decide, by decide, by decide, by decide,
    by decide⟩

/-- C5: the selector returns NotFound exactly when no date match occurs
among the first `lim` posts of the input, and its result is determined by
that leading window alone (posts beyond it are never examined). -/
theorem selector_notFound_iff_window_unmatched (posts : List Post)
    (m d lim : Nat) :
    (selectMenuPost posts m d lim = none ↔
      ∀ p ∈ posts.take lim, isDateMatch m d p = false) ∧
      selectMenuPost posts m d lim = selectMenuPost (posts.take lim) m d lim := by
  refine ⟨⟨?_, ?_⟩, selectMenuPost_take posts m d lim⟩
  · intro hnone p hp
    by_contra hmatch
    have hm : isDateMatch m d p = true := by simpa using hmatch
    have hcand : p ∈ candList posts m d lim := List.mem_filter.mpr ⟨hp, hm⟩
    have hne : candList posts m d lim ≠ [] := by
      intro hnil
      rw [hnil] at hcand
      cases hcand
    rw [selectMenuPost_eq_find? posts m d lim hne, ← head?_sortDesc] at hnone
    cases hs : sortDesc (candList posts m d lim) with
    | nil => exact hne ((sortDesc_eq_nil_iff _).mp hs)
    | cons a l => rw [hs] at hnone; cases hnone
  · intro hall
    have hnil : candList posts m d lim = [] := by
      unfold candList
      rw [List.filter_eq_nil_iff]
      intro a ha
      simp [hall a ha]
    unfold selectMenuPost
    rw [hnil]
    rfl

theorem selector_notFound_iff_window_unmatched_witness :
    selectMenuPost demoWindow 3 15 2 = none ∧
      selectMenuPost demoWindow 3 15 5 = some foodPost :=
  ⟨(selector_notFound_iff_window_unmatched demoWindow 3 15 2).1.mpr
      (by decide),
    by decide⟩

/-- C9: the date-parameterised crawler picks scan limit 20 when the target
date is strictly before the current date and 5 otherwise, so its result is
determined by at most that many leading posts. -/
theorem findByDate_scan_bound (posts : List Post) (today target : PyDate) :
    (dateLt target today = true →
      find_menu_post_by_date posts today target =
        find_menu_post_by_date (posts.take 20) today target) ∧
    (dateLt target today = false →
      find_menu_post_by_date posts today target =
        find_menu_post_by_date (posts.take 5) today target) := by
  constructor
  · intro hlt
    unfold find_menu_post_by_date
    rw [hlt]
    exact selectMenuPost_take posts target.month target.day 20
  · intro hge
    unfold find_menu_post_by_date
    rw [hge]
    exact selectMenuPost_take posts target.month target.day 5

theorem findByDate_scan_bound_witness :
    (find_menu_post_by_date demoWindow ⟨2024, 3, 16⟩ ⟨2024, 3, 15⟩ =
      find_menu_post_by_date (demoWindow.take 20) ⟨2024, 3, 16⟩ ⟨2024, 3, 15⟩) ∧
      (find_menu_post_by_date demoWindow ⟨2024, 3, 15⟩ ⟨2024, 3, 16⟩ =
        find_menu_post_by_date (demoWindow.take 5) ⟨2024, 3, 15⟩ ⟨2024, 3, 16⟩) :=
  ⟨(findByDate_scan_bound demoWindow ⟨2024, 3, 16⟩ ⟨2024, 3, 15⟩).1 (by decide),
    (findByDate_scan_bound demoWindow ⟨2024, 3, 15⟩ ⟨2024, 3, 16⟩).2 (by decide)⟩

/-! ## Claim theorems: the cache store -/

/-- Reading a field of a JSON object value (`entry["image_url"]`). -/
def objLookup : JsonVal → String → Option JsonVal
  | JsonVal.obj m, k => m.lookup k
  | _, _ => none

/-- C6: saving an entry for date D rewrites the whole mapping but modifies
only D's key: the persisted entry of every other date D' already present
is returned unchanged afterwards. -/
theorem save_preserves_other_dates (m : List (String × JsonVal))
    (D Dp : PyDate) (u s now : String)
    (hD : D.isValid) (hDp : Dp.isValid) (hne : Dp ≠ D) :
    load_menu_cache Dp (save_menu_cache D u s now (CacheFile.good m)).2 =
      load_menu_cache Dp (CacheFile.good m) := by
  have hkey : isoformat Dp ≠ isoformat D :=
    fun h => hne (isoformat_inj hDp hD h)
  exact lookup_dictSet_ne m (isoformat D) (isoformat Dp) _ hkey

theorem save_preserves_other_dates_witness :
    (⟨2024, 3, 6⟩ : PyDate).isValid ∧ (⟨2024, 3, 5⟩ : PyDate).isValid ∧
      load_menu_cache ⟨2024, 3, 5⟩
          (save_menu_cache ⟨2024, 3, 6⟩ "Y" "acct" "T2"
            (CacheFile.good [("2024-03-05", JsonVal.str "old")])).2 =
        load_menu_cache ⟨2024, 3, 5⟩
          (CacheFile.good [("2024-03-05", JsonVal.str "old")]) :=
  ⟨by decide, by decide,
    save_preserves_other_dates [("2024-03-05", JsonVal.str "old")]
      ⟨2024, 3, 6⟩ ⟨2024, 3, 5⟩ "Y" "acct" "T2" (by decide) (by decide)
      (by decide)⟩

/-- C7: a successful put for date d followed by get of d returns the entry
just stored, whose `image_url` is the given URL and whose `username` is
the given source identifier; a subsequent put for a different date leaves
that answer unchanged. -/
theorem cache_round_trip (st : CacheFile) (d dp : PyDate)
    (u s now up sp nowp : String)
    (hd : d.isValid) (hdp : dp.isValid) (hne : d ≠ dp) :
    load_menu_cache d (save_menu_cache d u s now st).2 =
        some (cacheEntry u now s) ∧
      objLookup (cacheEntry u now s) "image_url" = some (JsonVal.str u) ∧
      objLookup (cacheEntry u now s) "username" = some (JsonVal.str s) ∧
      load_menu_cache d
          (save_menu_cache dp up sp nowp (save_menu_cache d u s now st).2).2 =
        load_menu_cache d (save_menu_cache d u s now st).2 := by
  have hkey : isoformat d ≠ isoformat dp :=
    fun h => hne (isoformat_inj hd hdp h)
  have himg : ("image_url" == "image_url") = true := by decide
  have husr1 : ("username" == "image_url") = false := by decide
  have husr2 : ("username" == "timestamp") = false := by decide
  have husr3 : ("username" == "username") = true := by decide
  refine ⟨?_, ?_, ?_, ?_⟩
  · cases st <;> exact lookup_dictSet_self _ _ _
  · simp [cacheEntry, objLookup, lookup_cons, himg]
  · simp [cacheEntry, objLookup, lookup_cons, husr1, husr2, husr3]
  · cases st <;>
      exact lookup_dictSet_ne _ (isoformat dp) (isoformat d) _ hkey

theorem cache_round_trip_witness :
    (⟨2024, 3, 5⟩ : PyDate).isValid ∧ (⟨2024, 3, 6⟩ : PyDate).isValid ∧
      load_menu_cache ⟨2024, 3, 5⟩
          (save_menu_cache ⟨2024, 3, 5⟩ "X" "acct" "T1" CacheFile.missing).2 =
        some (cacheEntry "X" "T1" "acct") ∧
      objLookup (cacheEntry "X" "T1" "acct") "image_url" =
        some (JsonVal.str "X") ∧
      objLookup (cacheEntry "X" "T1" "acct") "username" =
        some (JsonVal.str "acct") ∧
      load_menu_cache ⟨2024, 3, 5⟩
          (save_menu_cache ⟨2024, 3, 6⟩ "Y" "acct" "T2"
            (save_menu_cache ⟨2024, 3, 5⟩ "X" "acct" "T1"
              CacheFile.missing).2).2 =
        load_menu_cache ⟨2024, 3, 5⟩
          (save_menu_cache ⟨2024, 3, 5⟩ "X" "acct" "T1" CacheFile.missing).2 := by
  have h := cache_round_trip CacheFile.missing ⟨2024, 3, 5⟩ ⟨2024, 3, 6⟩
    "X" "acct" "T1" "Y" "acct" "T2" (by decide) (by decide) (by decide)
  exact ⟨by decide, by decide, h.1, h.2.1, h.2.2.1, h.2.2.2⟩

/-- C8: a missing or corrupt cache resource is never fatal: get returns
NotFound on a missing resource and on an unparseable one without raising;
put over corrupt pre-existing content treats it as an empty mapping and
still succeeds; and in this model no put reports failure (the code returns
False only when the final write raises an unrecoverable I/O error). -/
theorem cache_corruption_not_fatal (d : PyDate) (u s now : String) :
    load_menu_cache d CacheFile.missing = none ∧
      load_menu_cache d CacheFile.corrupt = none ∧
      (save_menu_cache d u s now CacheFile.corrupt).1 = true ∧
      (save_menu_cache d u s now CacheFile.corrupt).2 =
        (save_menu_cache d u s now (CacheFile.good [])).2 ∧
      ∀ st, (save_menu_cache d u s now st).1 = true := by
  refine ⟨rfl, rfl, rfl, rfl, fun st => ?_⟩
  cases st <;> rfl

/-- C10: for a date whose ISO key is present in the stored mapping, get
returns the stored value under that key exactly as stored, with no
validation of its shape: any JSON value, even one missing the fields of
the cache-entry contract, is handed back as-is. -/
theorem load_returns_raw_value (d : PyDate) (m : List (String × JsonVal))
    (v : JsonVal) (h : m.lookup (isoformat d) = some v) :
    load_menu_cache d (CacheFile.good m) = some v := h

theorem load_returns_raw_value_witness :
    ([("2024-03-05", JsonVal.obj [])].lookup
        (isoformat ⟨2024, 3, 5⟩) = some (JsonVal.obj [])) ∧
      load_menu_cache ⟨2024, 3, 5⟩
          (CacheFile.good [("2024-03-05", JsonVal.obj [])]) =
        some (JsonVal.obj []) :=
  ⟨rfl, load_returns_raw_value ⟨2024, 3, 5⟩ [("2024-03-05", JsonVal.obj [])]
    (JsonVal.obj []) rfl⟩

end MenuKnow
